import Mathlib

/-!
Verification of the streaming speech client (src/client.py).

The development shallowly embeds the program's core functions:

* `MicrophoneStream.generator` (client.py lines 55-75) becomes `Client.generatorRun`
  over an explicit queue (the list of items that come out of the frame buffer
  queue, buffers as `some chunk`, the sentinel as `none`), an explicit clock
  (the elapsed time read at the top of each iteration) and an explicit drain
  schedule (how many items the non-blocking inner loop can still pull in each
  iteration before `queue.Empty` is raised).
* `send_text_to_backend` (lines 77-104) becomes `Client.send_text_to_backend`,
  with an oracle (`Client.RelayOutcome`) saying whether the HTTP interaction
  succeeds (and with which streamed body chunks) or raises a
  `requests.RequestException` (after which streamed chunks, with which message).
* `listen_print_loop` (lines 107-138) becomes `Client.loopGo` /
  `Client.listen_print_loop`, producing the list of observable events
  (`Client.Out`: stdout writes, prints, HTTP POST attempts) and the function's
  return value. The Python variable `transcript` starts unbound, which is
  modelled by an `Option String` accumulator: a `none` result means the
  `return transcript` statement raises `UnboundLocalError`.
* the `while True:` session driver of `main` (lines 157-167) becomes
  `Client.mainDriver`.

Byte strings are modelled as `List Nat`; strings as Lean `String`; the
`\b(exit|quit)\b` regular expression (with `re.I`) is embedded by the scanner
`Client.searchFrom` over the ASCII fragment of Python's `\w` class.
-/

namespace Client

/-- A byte string (the contents of one audio buffer). -/
abbrev Chunk := List Nat

/-- client.py line 14: `STREAM_DURATION_LIMIT = 300`. -/
def STREAM_DURATION_LIMIT : Nat := 300

/-- The inner non-blocking drain loop of `MicrophoneStream.generator`
(client.py lines 66-73).  `q` is the list of items still in the queue, `k` is
how many items `get(block=False)` can still return before raising
`queue.Empty`.  Returns the drained chunks in order, the remaining queue and
whether the sentinel `None` was consumed (in which case the Python code
executes `return`, discarding the accumulated data). -/
def drain : List (Option Chunk) → Nat → List Chunk × List (Option Chunk) × Bool
  | q, 0 => ([], q, false)
  | [], _ + 1 => ([], [], false)
  | none :: rest, _ + 1 => ([], rest, true)
  | some c :: rest, k + 1 =>
    ((drain rest k).1.cons c, (drain rest k).2.1, (drain rest k).2.2)

/-- `MicrophoneStream.generator` (client.py lines 55-75).  One outer iteration:
check the duration limit against the elapsed-time reading `times.headD 0`
(line 58), blocking-`get` one item (line 61, end of stream if it is the
sentinel, line 62), drain the immediately available items (lines 66-73), and
yield the concatenation (line 75).  The result is the list of yielded chunks
together with a flag that is `true` exactly when the run ended because the
sentinel was consumed inside the non-blocking drain (the `return` at line 70,
which discards the data accumulated in that iteration).  The session's
`closed` flag stays `False` while the generator is being driven, so it is not
modelled. -/
def generatorRun : List (Option Chunk) → List Nat → List Nat → List Chunk × Bool
  | q, times, sched =>
    if STREAM_DURATION_LIMIT < times.headD 0 then ([], false)
    else
      match q with
      | [] => ([], false)
      | none :: _ => ([], false)
      | some c :: rest =>
        if (drain rest (sched.headD 0)).2.2 then ([], true)
        else
          ((c :: (drain rest (sched.headD 0)).1).flatten ::
              (generatorRun (drain rest (sched.headD 0)).2.1 times.tail sched.tail).1,
            (generatorRun (drain rest (sched.headD 0)).2.1 times.tail sched.tail).2)
termination_by q _ _ => q.length
decreasing_by
  all_goals
    simp only [List.length_cons]
    refine Nat.lt_succ_of_le ?_
    generalize sched.headD 0 = k
    clear * - rest k
    induction rest generalizing k with
    | nil => cases k <;> simp [drain]
    | cons o rest ih =>
      cases k with
      | zero => simp [drain]
      | succ k =>
        cases o with
        | none => simp [drain]
        | some c2 => simpa [drain] using Nat.le_succ_of_le (ih k)

/-- The chunk sequence produced by `MicrophoneStream.generator`. -/
def generator (q : List (Option Chunk)) (times sched : List Nat) : List Chunk :=
  (generatorRun q times sched).1

/-- Whether the run hit the sentinel inside the non-blocking drain
(the `return` at client.py line 70). -/
def midDrainSentinel (q : List (Option Chunk)) (times sched : List Nat) : Bool :=
  (generatorRun q times sched).2

/-- The queue contents after `N` buffers were enqueued by `_fill_buffer`
(client.py line 52) followed by the sentinel from `__exit__` (line 47). -/
def enqueueAll (bs : List Chunk) : List (Option Chunk) :=
  bs.map some ++ [none]

/-- One recognition alternative: only the `transcript` field is read
(client.py line 118). -/
structure Alternative where
  transcript : String
deriving DecidableEq

/-- One recognition result: the fields read at client.py lines 115 and 121. -/
structure SpeechResult where
  alternatives : List Alternative
  is_final : Bool
deriving DecidableEq

/-- One streaming recognition response: client.py line 111. -/
structure RecognitionResponse where
  results : List SpeechResult
deriving DecidableEq

/-- Observable events of the program: `sys.stdout.write`, `print`, and the
HTTP POST attempt performed by `requests.post` (url and JSON body fields). -/
inductive Out where
  | write (s : String)
  | printed (s : String)
  | post (url : String) (body : List (String × String))
deriving DecidableEq

/-- The fate of one `requests.post` interaction in `send_text_to_backend`:
either it succeeds and streams `chunks` as the response body, or a
`requests.RequestException` is raised after `prior` body chunks were already
displayed (so `err [] msg` is a connection or HTTP-status error before any
body output). -/
inductive RelayOutcome where
  | ok (chunks : List String)
  | err (prior : List String) (msg : String)

/-- client.py line 79. -/
def api_url : String := "http://localhost:8000/api/v1/interviews/1/start"

/-- Python string repetition `s * n`: a non-positive count gives the empty
string (client.py line 119). -/
def pyStrRepeat (s : String) (n : Int) : String :=
  String.join (List.replicate n.toNat s)

/-- The response-streaming display loop of `send_text_to_backend`
(client.py lines 92-101): falsy (empty) chunks are skipped, each other chunk
is appended to `current_text` and the whole accumulated text is rewritten on
one updating line. -/
def relayWrites : List String → String → List Out
  | [], _ => []
  | c :: cs, current_text =>
    if c = "" then relayWrites cs current_text
    else Out.write ("\r" ++ (current_text ++ c)) :: relayWrites cs (current_text ++ c)

/-- The `try:` block of `send_text_to_backend` (client.py lines 83-101): the
events it emits, and `some msg` when a `requests.RequestException` escapes the
block to the handler.  When the transcript is empty nothing at all happens
(the guard at line 84 is inside the `try`). -/
def try_body (transcript : String) (outcome : RelayOutcome) : List Out × Option String :=
  if transcript = "" then ([], none)
  else
    match outcome with
    | RelayOutcome.ok chunks =>
      (Out.printed ("Sending text to backend:  " ++ transcript) ::
          Out.post api_url [("Question", transcript)] :: relayWrites chunks "", none)
    | RelayOutcome.err prior msg =>
      (Out.printed ("Sending text to backend:  " ++ transcript) ::
          Out.post api_url [("Question", transcript)] :: relayWrites prior "", some msg)

/-- `send_text_to_backend` (client.py lines 77-104): run the `try:` block and
catch any `requests.RequestException` in the `except` handler at line 103,
which prints the error; the function always returns normally. -/
def send_text_to_backend (transcript : String) (outcome : RelayOutcome) : List Out :=
  match try_body transcript outcome with
  | (outs, none) => outs
  | (outs, some msg) => outs ++ [Out.printed ("Error sending request to backend: " ++ msg)]

/-- ASCII fragment of the `\w` character class used by `\b` in the pattern at
client.py line 133. -/
def isWordChar (c : Char) : Bool := c.isAlphanum || c = '_'

/-- Whether the character before the current position (none at the start of
the string) allows a `\b` boundary in front of a word character. -/
def boundaryOK : Option Char → Bool
  | none => true
  | some c => !isWordChar c

/-- Case-insensitive match of the word `w` (given in lowercase) at the head of
`s`, followed by a `\b` boundary: the next character, if any, is not a word
character. -/
def ciPrefixBoundary : List Char → List Char → Bool
  | [], [] => true
  | [], c :: _ => !isWordChar c
  | _ :: _, [] => false
  | a :: w, c :: s => (Char.toLower c == a) && ciPrefixBoundary w s

/-- Scanner for `re.search`: try a boundary-delimited case-insensitive match
of `w` at every position of `s`, where `prev` is the character just before the
current position. -/
def searchFrom (w : List Char) : Option Char → List Char → Bool
  | prev, [] => boundaryOK prev && ciPrefixBoundary w []
  | prev, c :: s =>
    (boundaryOK prev && ciPrefixBoundary w (c :: s)) || searchFrom w (some c) s

def exit_chars : List Char := ['e', 'x', 'i', 't']

def quit_chars : List Char := ['q', 'u', 'i', 't']

/-- The stop-phrase check `re.search(r"\b(exit|quit)\b", transcript, re.I)`
at client.py line 133, as a Boolean. -/
def reSearchExitQuit (transcript : String) : Bool :=
  searchFrom exit_chars none transcript.data || searchFrom quit_chars none transcript.data

/-- Declarative reading of the stop-phrase check: the string contains an
occurrence of `w` (up to lowercasing) delimited by word boundaries on both
sides. -/
def IsWordOccurrence (w : List Char) (s : String) : Prop :=
  ∃ pre mid post, s.data = pre ++ mid ++ post
    ∧ mid.map Char.toLower = w
    ∧ (∀ c, pre.getLast? = some c → isWordChar c = false)
    ∧ (∀ c, post.head? = some c → isWordChar c = false)

/-- The body of `listen_print_loop` (client.py lines 109-138).  Arguments:
the remaining responses, the oracle of relay outcomes (consumed one per relay
call), the current `num_chars_printed`, and the current value of the Python
variable `transcript` (`none` while it is still unbound).  Returns the emitted
events and the value of `transcript` at the `return` statement (line 138);
`none` there means the return raises `UnboundLocalError`. -/
def loopGo : List RecognitionResponse → List RelayOutcome → Nat → Option String →
    List Out × Option String
  | [], _, _, transcript0 => ([], transcript0)
  | response :: rest, oracle, num_chars_printed, transcript0 =>
    match response.results with
    | [] => loopGo rest oracle num_chars_printed transcript0
    | result :: _ =>
      match result.alternatives with
      | [] => loopGo rest oracle num_chars_printed transcript0
      | alt :: _ =>
        let transcript := alt.transcript
        let overwrite_chars :=
          pyStrRepeat " " ((num_chars_printed : Int) - (transcript.length : Int))
        if result.is_final = false then
          (Out.write (transcript ++ overwrite_chars ++ "\r") ::
              (loopGo rest oracle transcript.length (some transcript)).1,
            (loopGo rest oracle transcript.length (some transcript)).2)
        else
          if reSearchExitQuit transcript then
            (Out.write (transcript ++ overwrite_chars ++ "\n") ::
                send_text_to_backend transcript (oracle.headD (RelayOutcome.ok [])) ++
                  [Out.printed "Exiting.."],
              some transcript)
          else
            (Out.write (transcript ++ overwrite_chars ++ "\n") ::
                send_text_to_backend transcript (oracle.headD (RelayOutcome.ok [])) ++
                  (loopGo rest oracle.tail 0 (some transcript)).1,
              (loopGo rest oracle.tail 0 (some transcript)).2)

/-- `listen_print_loop` (client.py lines 107-138): `num_chars_printed`
starts at 0 and `transcript` starts unbound. -/
def listen_print_loop (responses : List RecognitionResponse)
    (oracle : List RelayOutcome) : List Out × Option String :=
  loopGo responses oracle 0 none

/-- The result (transcript, is_final) the loop would process for a response:
`none` when the response is skipped, because it has no results (client.py
line 111) or its first result has no alternatives (line 115). -/
def processedResult (r : RecognitionResponse) : Option (String × Bool) :=
  match r.results with
  | [] => none
  | result :: _ =>
    match result.alternatives with
    | [] => none
    | alt :: _ => some (alt.transcript, result.is_final)

/-- Whether the loop processes this response as a final result. -/
def isProcessedFinal (r : RecognitionResponse) : Bool :=
  match processedResult r with
  | some (_, true) => true
  | _ => false

/-- Whether `listen_print_loop` skips this response without touching any
state. -/
def skipped (r : RecognitionResponse) : Bool :=
  match r.results with
  | [] => true
  | result :: _ => result.alternatives.isEmpty

/-- The HTTP POST attempts contained in an event trace. -/
def postsOf (outs : List Out) : List (String × List (String × String)) :=
  outs.filterMap fun o =>
    match o with
    | Out.post u b => some (u, b)
    | _ => none

/-- Last-seen transcript: the value `listen_print_loop` hands back, described
at the specification level.  It is the transcript of the last processed
result, where processing stops early at a final result matching the stop
phrase (the `break` at client.py line 135). -/
def lastSeenTranscript : List RecognitionResponse → Option String → Option String
  | [], transcript0 => transcript0
  | response :: rest, transcript0 =>
    match response.results with
    | [] => lastSeenTranscript rest transcript0
    | result :: _ =>
      match result.alternatives with
      | [] => lastSeenTranscript rest transcript0
      | alt :: _ =>
        if result.is_final && reSearchExitQuit alt.transcript then some alt.transcript
        else lastSeenTranscript rest (some alt.transcript)

/-- The external inputs one session happens to receive: the recognition
responses the bridge yields and the outcomes of the relay calls. -/
structure SessionInput where
  responses : List RecognitionResponse
  oracle : List RelayOutcome

/-- The `while True:` session driver of `main` (client.py lines 157-167),
observed for `k` iterations: each iteration opens a fresh session and runs
`listen_print_loop` over its response sequence.  The driver never inspects
the result of a session to decide whether to continue. -/
def mainDriver : Nat → (Nat → SessionInput) → List (List Out × Option String)
  | 0, _ => []
  | k + 1, inp =>
    listen_print_loop (inp 0).responses (inp 0).oracle ::
      mainDriver k (fun i => inp (i + 1))

/-! ### Unfolding lemmas for the generator -/

theorem generatorRun_timeout (q : List (Option Chunk)) (times sched : List Nat)
    (h : STREAM_DURATION_LIMIT < times.headD 0) :
    generatorRun q times sched = ([], false) := by
  cases q with
  | nil => rw [generatorRun.eq_1, if_pos h]
  | cons o rest =>
    cases o with
    | none => rw [generatorRun.eq_2, if_pos h]
    | some c => rw [generatorRun.eq_3, if_pos h]

theorem generatorRun_nilQueue (times sched : List Nat) :
    generatorRun [] times sched = ([], false) := by
  rw [generatorRun.eq_1]; split <;> rfl

theorem generatorRun_sentinelFirst (rest : List (Option Chunk)) (times sched : List Nat) :
    generatorRun (none :: rest) times sched = ([], false) := by
  rw [generatorRun.eq_2]; split <;> rfl

theorem generatorRun_cons (c : Chunk) (rest : List (Option Chunk)) (times sched : List Nat)
    (h : ¬ STREAM_DURATION_LIMIT < times.headD 0) :
    generatorRun (some c :: rest) times sched =
      if (drain rest (sched.headD 0)).2.2 then ([], true)
      else
        ((c :: (drain rest (sched.headD 0)).1).flatten ::
            (generatorRun (drain rest (sched.headD 0)).2.1 times.tail sched.tail).1,
          (generatorRun (drain rest (sched.headD 0)).2.1 times.tail sched.tail).2) := by
  rw [generatorRun.eq_3, if_neg h]

theorem generatorRun_enqueue_nil (times sched : List Nat) :
    generatorRun (enqueueAll []) times sched = ([], false) := by
  show generatorRun [none] times sched = ([], false)
  by_cases h : STREAM_DURATION_LIMIT < times.headD 0
  · exact generatorRun_timeout _ _ _ h
  · exact generatorRun_sentinelFirst _ _ _

/-- Behaviour of the non-blocking drain on a queue holding the buffers `bs`
followed by the sentinel: with `k` items available it either consumes the
first `k` buffers, or reaches the sentinel and reports the hit. -/
theorem drain_enqueue (bs : List Chunk) : ∀ k : Nat,
    (k ≤ bs.length → drain (enqueueAll bs) k = (bs.take k, enqueueAll (bs.drop k), false))
    ∧ (bs.length < k → drain (enqueueAll bs) k = (bs, [], true)) := by
  induction bs with
  | nil =>
    intro k
    cases k with
    | zero => simp [drain, enqueueAll]
    | succ k => simp [drain, enqueueAll]
  | cons b bs ih =>
    intro k
    cases k with
    | zero => simp [drain, enqueueAll]
    | succ k =>
      have hcons : enqueueAll (b :: bs) = some b :: enqueueAll bs := rfl
      constructor
      · intro hk
        have h1 := (ih k).1 (by simpa using hk)
        rw [hcons]
        simp [drain, h1]
      · intro hk
        have h1 := (ih k).2 (by simpa using hk)
        rw [hcons]
        simp [drain, h1]

/-- Core behaviour of the generator on a queue of `N` buffers followed by the
sentinel, assuming no clock reading exceeds the limit: at most `N` chunks come
out, their concatenation is a prefix of the input concatenation, and when the
sentinel was not consumed inside a non-blocking drain the yielded chunks are
exactly the flattenings of a partition of the buffer list. -/
theorem generatorRun_enqueue_spec : ∀ (n : Nat) (bs : List Chunk) (times sched : List Nat),
    bs.length ≤ n → (∀ t ∈ times, t ≤ STREAM_DURATION_LIMIT) →
    (generatorRun (enqueueAll bs) times sched).1.length ≤ bs.length
    ∧ (∃ dropped, (generatorRun (enqueueAll bs) times sched).1.flatten ++ dropped = bs.flatten)
    ∧ ((generatorRun (enqueueAll bs) times sched).2 = false →
        ∃ groups : List (List Chunk), groups.flatten = bs
          ∧ (generatorRun (enqueueAll bs) times sched).1 = groups.map List.flatten) := by
  intro n
  induction n with
  | zero =>
    intro bs times sched hlen ht
    have hbs : bs = [] := List.length_eq_zero.mp (Nat.le_zero.mp hlen)
    subst hbs
    simp [generatorRun_enqueue_nil]
  | succ n ih =>
    intro bs times sched hlen ht
    cases bs with
    | nil =>
      simp [generatorRun_enqueue_nil]
    | cons b bs =>
      have hto : ¬ STREAM_DURATION_LIMIT < times.headD 0 := by
        cases times with
        | nil => simp [List.headD]
        | cons t ts => simpa using Nat.not_lt.mpr (ht t (List.mem_cons_self t ts))
      have hcons : enqueueAll (b :: bs) = some b :: enqueueAll bs := rfl
      rw [hcons, generatorRun_cons _ _ _ _ hto]
      by_cases hbig : bs.length < sched.headD 0
      · rw [(drain_enqueue bs (sched.headD 0)).2 hbig]
        simp
      · push_neg at hbig
        rw [(drain_enqueue bs (sched.headD 0)).1 hbig]
        have htl : ∀ t ∈ times.tail, t ≤ STREAM_DURATION_LIMIT := fun t h =>
          ht t (List.mem_of_mem_tail h)
        have hdlen : (bs.drop (sched.headD 0)).length ≤ n := by
          simp only [List.length_cons] at hlen
          simp only [List.length_drop]
          omega
        obtain ⟨H1, ⟨d, H2⟩, H3⟩ := ih (bs.drop (sched.headD 0)) times.tail sched.tail hdlen htl
        simp only [Bool.false_eq_true, if_false]
        refine ⟨?_, ?_, ?_⟩
        · simp only [List.length_cons]
          simp only [List.length_drop] at H1
          omega
        · refine ⟨d, ?_⟩
          simp only [List.flatten_cons, List.append_assoc, H2]
          rw [← List.flatten_append, List.take_append_drop]
        · intro hfl
          obtain ⟨groups, hg1, hg2⟩ := H3 hfl
          refine ⟨(b :: bs.take (sched.headD 0)) :: groups, ?_, ?_⟩
          · simp [List.flatten_cons, hg1, List.cons_append, List.take_append_drop]
          · simp only [List.map_cons]
            exact congrArg (List.cons _) hg2

/-! ### Claims C1 and C3 -/

/-- C1 (amended): for a sequence of `N` buffers enqueued on the frame buffer
queue followed by the sentinel, with every clock reading within the duration
limit, the generator yields at most `N` chunks whose concatenation is a
prefix of the concatenation of the input buffers; and whenever the sentinel
is not consumed inside a non-blocking drain, the yielded chunks are exactly
the flattenings of consecutive groups partitioning the input buffers — in
original order, nothing dropped, reordered or duplicated.  (As originally
stated — full concatenation preserved regardless of where the sentinel sits
relative to the drain — the claim is false: see the counterexample.) -/
theorem chunk_ordering (bs : List Chunk) (times sched : List Nat)
    (ht : ∀ t ∈ times, t ≤ STREAM_DURATION_LIMIT) :
    (generator (enqueueAll bs) times sched).length ≤ bs.length
    ∧ (∃ dropped, (generator (enqueueAll bs) times sched).flatten ++ dropped = bs.flatten)
    ∧ (midDrainSentinel (enqueueAll bs) times sched = false →
        ∃ groups : List (List Chunk), groups.flatten = bs
          ∧ generator (enqueueAll bs) times sched = groups.map List.flatten) :=
  generatorRun_enqueue_spec bs.length bs times sched le_rfl ht

/-- Witness for C1 at a concrete input: two buffers, clock at 0, one item
available per drain. -/
theorem chunk_ordering_witness :
    (generator (enqueueAll [[1], [2]]) [0, 0, 0] [1, 1, 1]).length ≤ 2
    ∧ (∃ dropped, (generator (enqueueAll [[1], [2]]) [0, 0, 0] [1, 1, 1]).flatten ++ dropped
        = ([[1], [2]] : List Chunk).flatten)
    ∧ (midDrainSentinel (enqueueAll [[1], [2]]) [0, 0, 0] [1, 1, 1] = false →
        ∃ groups : List (List Chunk), groups.flatten = [[1], [2]]
          ∧ generator (enqueueAll [[1], [2]]) [0, 0, 0] [1, 1, 1] = groups.map List.flatten) :=
  chunk_ordering [[1], [2]] [0, 0, 0] [1, 1, 1] (by decide)

/-- C1 counterexample: one buffer `[1]` is enqueued followed by the sentinel,
the clock stays at 0, and the sentinel is already available to the
non-blocking drain of the first iteration (schedule `[1]`).  The inner drain
consumes the sentinel and executes `return` (client.py line 70), discarding
the buffer already accumulated in `data`: the generator yields nothing, so
the concatenation of the yielded chunks is not the concatenation of the
enqueued buffers. -/
theorem chunk_ordering_cex :
    (generator (enqueueAll [[1]]) [0] [1]).flatten ≠ ([[1]] : List Chunk).flatten := by
  have h : generator (enqueueAll [[1]]) [0] [1] = [] := by
    show (generatorRun [some [1], none] [0] [1]).1 = []
    rw [generatorRun_cons _ _ _ _ (by decide)]
    norm_num [drain]
  rw [h]
  decide

/-- C3: if the elapsed-time reading at the top of a generator iteration
(the moment of a pull) exceeds `STREAM_DURATION_LIMIT`, the chunk sequence
ends immediately without yielding further data, whatever is still queued. -/
theorem session_timeout (q : List (Option Chunk)) (times sched : List Nat)
    (h : STREAM_DURATION_LIMIT < times.headD 0) :
    generator q times sched = [] := by
  show (generatorRun q times sched).1 = []
  rw [generatorRun_timeout q times sched h]

/-- Witness for C3: elapsed 301 seconds with two chunks still queued. -/
theorem session_timeout_witness :
    generator [some [1], some [2], none] [301] [5] = [] :=
  session_timeout [some [1], some [2], none] [301] [5] (by decide)

/-! ### Length of the overwrite padding -/

theorem length_foldl_append (l : List String) : ∀ acc : String,
    (l.foldl (· ++ ·) acc).length = acc.length + (l.map String.length).sum := by
  induction l with
  | nil => intro acc; simp
  | cons s l ih =>
    intro acc
    simp only [List.foldl_cons, ih, List.map_cons, List.sum_cons, String.length_append]
    omega

theorem length_pyStrRepeat (s : String) (n : Int) :
    (pyStrRepeat s n).length = n.toNat * s.length := by
  show (String.join (List.replicate n.toNat s)).length = n.toNat * s.length
  rw [String.join, length_foldl_append]
  simp [List.map_replicate, mul_comm]

/-! ### Claim C4 -/

/-- C4: for a prior printed length `L` and a new transcript `t`, the overwrite
padding computed at client.py line 119 consists of exactly
`max(0, L - len(t))` spaces, and the dispatcher emits it after the transcript
on both the interim branch (line 122, ending in a carriage return) and the
final branch (line 127, ending in a newline). -/
theorem overwrite_arithmetic (L : Nat) (t : String) (fin : Bool) (alts : List Alternative)
    (more : List SpeechResult) (rs : List RecognitionResponse) (oracle : List RelayOutcome)
    (last : Option String) :
    (pyStrRepeat " " ((L : Int) - (t.length : Int))).length
      = (max 0 ((L : Int) - (t.length : Int))).toNat
    ∧ ∃ rest2, (loopGo (⟨⟨⟨t⟩ :: alts, fin⟩ :: more⟩ :: rs) oracle L last).1
        = Out.write (t ++ pyStrRepeat " " ((L : Int) - (t.length : Int))
            ++ (if fin then "\n" else "\r")) :: rest2 := by
  constructor
  · rw [length_pyStrRepeat]
    have h1 : (" " : String).length = 1 := rfl
    rw [h1, Nat.mul_one]
    omega
  · cases fin with
    | false =>
      refine ⟨(loopGo rs oracle t.length (some t)).1, ?_⟩
      simp [loopGo]
    | true =>
      by_cases hx : reSearchExitQuit t
      · refine ⟨send_text_to_backend t (oracle.headD (RelayOutcome.ok []))
          ++ [Out.printed "Exiting.."], ?_⟩
        simp [loopGo, hx]
      · refine ⟨send_text_to_backend t (oracle.headD (RelayOutcome.ok []))
          ++ (loopGo rs oracle.tail 0 (some t)).1, ?_⟩
        simp [loopGo, hx]

/-! ### Claims C2 and C10: the value handed back by the loop -/

theorem loopGo_snd (rs : List RecognitionResponse) :
    ∀ (oracle : List RelayOutcome) (n : Nat) (t0 : Option String),
    (loopGo rs oracle n t0).2 = lastSeenTranscript rs t0 := by
  induction rs with
  | nil => intro oracle n t0; rfl
  | cons r rs ih =>
    intro oracle n t0
    obtain ⟨results⟩ := r
    cases results with
    | nil => simpa [loopGo, lastSeenTranscript] using ih oracle n t0
    | cons res more =>
      obtain ⟨alts, fin⟩ := res
      cases alts with
      | nil => simpa [loopGo, lastSeenTranscript] using ih oracle n t0
      | cons alt as =>
        cases fin with
        | false =>
          simpa [loopGo, lastSeenTranscript] using
            ih oracle alt.transcript.length (some alt.transcript)
        | true =>
          by_cases hx : reSearchExitQuit alt.transcript
          · simp [loopGo, lastSeenTranscript, hx]
          · simpa [loopGo, lastSeenTranscript, hx] using
              ih oracle.tail 0 (some alt.transcript)

/-- C2 (amended): the loop hands back the transcript of the last result it
processed — interim or final — where processing stops early at a final result
matching the stop phrase; when no result is ever processed, no transcript
exists and the `return` raises `UnboundLocalError` (the `none` case).  In
particular a sequence with interim results but no final result still hands
back the last interim transcript. -/
theorem loop_returns_last_seen (responses : List RecognitionResponse)
    (oracle : List RelayOutcome) :
    (listen_print_loop responses oracle).2 = lastSeenTranscript responses none :=
  loopGo_snd responses oracle 0 none

/-- C2 counterexample: a response sequence with a single interim (non-final)
result with transcript "hello" — the claim says the loop then yields no
transcript, but the code returns "hello". -/
theorem loop_returns_last_seen_cex :
    (∀ r ∈ [(⟨[⟨[⟨"hello"⟩], false⟩]⟩ : RecognitionResponse)],
        ∀ res ∈ r.results, res.is_final = false)
    ∧ (listen_print_loop [⟨[⟨[⟨"hello"⟩], false⟩]⟩] []).2 = some "hello" := by
  exact ⟨by decide, by decide⟩

theorem lastSeenTranscript_skipped (rs : List RecognitionResponse) :
    ∀ t0, (∀ r ∈ rs, skipped r = true) → lastSeenTranscript rs t0 = t0 := by
  induction rs with
  | nil => intro t0 _; rfl
  | cons r rs ih =>
    intro t0 h
    have hr := h r (List.mem_cons_self r rs)
    have htl : ∀ x ∈ rs, skipped x = true := fun x hx => h x (List.mem_cons_of_mem r hx)
    obtain ⟨results⟩ := r
    cases results with
    | nil => simpa [lastSeenTranscript] using ih t0 htl
    | cons res more =>
      obtain ⟨alts, fin⟩ := res
      cases alts with
      | nil => simpa [lastSeenTranscript] using ih t0 htl
      | cons alt as => simp [skipped] at hr

/-- C10: when the response sequence is empty or every response is skipped
(no results, or a first result with no alternatives), the Python variable
`transcript` is never assigned, so the `return transcript` statement at
client.py line 138 raises `UnboundLocalError` — modelled by the loop's
returned value staying `none`. -/
theorem unbound_transcript_on_all_skipped (rs : List RecognitionResponse)
    (oracle : List RelayOutcome) (h : ∀ r ∈ rs, skipped r = true) :
    (listen_print_loop rs oracle).2 = none := by
  show (loopGo rs oracle 0 none).2 = none
  rw [loopGo_snd]
  exact lastSeenTranscript_skipped rs none h

/-- Witness for C10: one response without results and one whose first result
has no alternatives. -/
theorem unbound_transcript_on_all_skipped_witness :
    (listen_print_loop [⟨[]⟩, ⟨[⟨[], true⟩]⟩] []).2 = none :=
  unbound_transcript_on_all_skipped [⟨[]⟩, ⟨[⟨[], true⟩]⟩] [] (by decide)

/-! ### Posts emitted by the relay and the loop -/

theorem postsOf_append (a b : List Out) : postsOf (a ++ b) = postsOf a ++ postsOf b :=
  List.filterMap_append a b _

theorem postsOf_nil : postsOf [] = [] := rfl

theorem postsOf_write (s : String) (l : List Out) :
    postsOf (Out.write s :: l) = postsOf l := by
  simp [postsOf, List.filterMap_cons]

theorem postsOf_printed (s : String) (l : List Out) :
    postsOf (Out.printed s :: l) = postsOf l := by
  simp [postsOf, List.filterMap_cons]

theorem postsOf_post (u : String) (b : List (String × String)) (l : List Out) :
    postsOf (Out.post u b :: l) = (u, b) :: postsOf l := by
  simp [postsOf, List.filterMap_cons]

theorem postsOf_relayWrites (cs : List String) : ∀ cur : String,
    postsOf (relayWrites cs cur) = [] := by
  induction cs with
  | nil => intro cur; rfl
  | cons c cs ih =>
    intro cur
    by_cases h : c = ""
    · simp only [relayWrites, if_pos h]
      exact ih cur
    · simp only [relayWrites, if_neg h]
      rw [postsOf_write]
      exact ih (cur ++ c)

/-- The POST attempts of one `send_text_to_backend` call: exactly one, to the
fixed endpoint with the one-field JSON body, unless the transcript is empty,
in which case there are none — whatever the outcome of the HTTP interaction. -/
theorem postsOf_send (t : String) (o : RelayOutcome) :
    postsOf (send_text_to_backend t o)
      = if t = "" then [] else [(api_url, [("Question", t)])] := by
  by_cases ht : t = ""
  · cases o <;> simp [send_text_to_backend, try_body, ht, postsOf]
  · cases o with
    | ok chunks =>
      simp only [send_text_to_backend, try_body, if_neg ht]
      rw [postsOf_printed, postsOf_post, postsOf_relayWrites]
    | err prior msg =>
      simp only [send_text_to_backend, try_body, if_neg ht]
      rw [postsOf_append, postsOf_printed, postsOf_post, postsOf_relayWrites,
        postsOf_printed]
      simp [postsOf]

/-- C7: the relay issues an HTTP POST if and only if the transcript is
non-empty; the POST carries the JSON body with the single field
`Question = transcript`. -/
theorem empty_transcript_guard (t : String) (o : RelayOutcome) :
    postsOf (send_text_to_backend t o)
        = (if t = "" then [] else [(api_url, [("Question", t)])])
    ∧ (postsOf (send_text_to_backend t o) ≠ [] ↔ t ≠ "") := by
  refine ⟨postsOf_send t o, ?_⟩
  rw [postsOf_send t o]
  by_cases ht : t = "" <;> simp [ht]

/-! ### Step lemmas for the response-processing loop -/

theorem loopGo_skip (r : RecognitionResponse) (rest : List RecognitionResponse)
    (oracle : List RelayOutcome) (n : Nat) (t0 : Option String)
    (hr : skipped r = true) :
    loopGo (r :: rest) oracle n t0 = loopGo rest oracle n t0 := by
  obtain ⟨results⟩ := r
  cases results with
  | nil => rfl
  | cons res more =>
    obtain ⟨alts, fin⟩ := res
    cases alts with
    | nil => rfl
    | cons alt as => simp [skipped] at hr

theorem loopGo_interim (t : String) (as : List Alternative) (more : List SpeechResult)
    (rest : List RecognitionResponse) (oracle : List RelayOutcome) (n : Nat)
    (t0 : Option String) :
    loopGo (⟨⟨⟨t⟩ :: as, false⟩ :: more⟩ :: rest) oracle n t0
      = (Out.write (t ++ pyStrRepeat " " ((n : Int) - (t.length : Int)) ++ "\r")
            :: (loopGo rest oracle t.length (some t)).1,
          (loopGo rest oracle t.length (some t)).2) := rfl

theorem loopGo_final (t : String) (as : List Alternative) (more : List SpeechResult)
    (rest : List RecognitionResponse) (oracle : List RelayOutcome) (n : Nat)
    (t0 : Option String) :
    loopGo (⟨⟨⟨t⟩ :: as, true⟩ :: more⟩ :: rest) oracle n t0
      = (if reSearchExitQuit t then
          (Out.write (t ++ pyStrRepeat " " ((n : Int) - (t.length : Int)) ++ "\n")
              :: send_text_to_backend t (oracle.headD (RelayOutcome.ok []))
              ++ [Out.printed "Exiting.."],
            some t)
        else
          (Out.write (t ++ pyStrRepeat " " ((n : Int) - (t.length : Int)) ++ "\n")
              :: send_text_to_backend t (oracle.headD (RelayOutcome.ok []))
              ++ (loopGo rest oracle.tail 0 (some t)).1,
            (loopGo rest oracle.tail 0 (some t)).2)) := rfl

/-- Responses the loop passes over without reaching the final-result branch
(skipped, or processed as interim) contribute no POST attempts and leave the
relay-outcome oracle untouched. -/
theorem loopGo_skip_prefix (pre : List RecognitionResponse) :
    ∀ (rest : List RecognitionResponse) (oracle : List RelayOutcome) (n : Nat)
      (t0 : Option String), (∀ r ∈ pre, isProcessedFinal r = false) →
    ∃ outs n2 t2, loopGo (pre ++ rest) oracle n t0
        = (outs ++ (loopGo rest oracle n2 t2).1, (loopGo rest oracle n2 t2).2)
      ∧ postsOf outs = [] := by
  induction pre with
  | nil =>
    intro rest oracle n t0 _
    exact ⟨[], n, t0, by simp, rfl⟩
  | cons r pre ih =>
    intro rest oracle n t0 h
    have hr := h r (List.mem_cons_self r pre)
    have htl : ∀ x ∈ pre, isProcessedFinal x = false := fun x hx =>
      h x (List.mem_cons_of_mem r hx)
    obtain ⟨results⟩ := r
    cases results with
    | nil =>
      obtain ⟨outs, n2, t2, heq, hp⟩ := ih rest oracle n t0 htl
      exact ⟨outs, n2, t2, by simpa [loopGo] using heq, hp⟩
    | cons res more =>
      obtain ⟨alts, fin⟩ := res
      cases alts with
      | nil =>
        obtain ⟨outs, n2, t2, heq, hp⟩ := ih rest oracle n t0 htl
        exact ⟨outs, n2, t2, by simpa [loopGo] using heq, hp⟩
      | cons alt as =>
        cases fin with
        | true => simp [isProcessedFinal, processedResult] at hr
        | false =>
          obtain ⟨outs, n2, t2, heq, hp⟩ :=
            ih rest oracle alt.transcript.length (some alt.transcript) htl
          obtain ⟨t⟩ := alt
          refine ⟨Out.write (t
              ++ pyStrRepeat " " ((n : Int) - (t.length : Int)) ++ "\r")
              :: outs, n2, t2, ?_, ?_⟩
          · rw [List.cons_append, loopGo_interim, heq]
            simp
          · simpa [postsOf_write] using hp

/-- POST attempts of a full loop run over responses none of which is
processed as a final result: there are none. -/
theorem loopGo_no_final_posts (rs : List RecognitionResponse)
    (oracle : List RelayOutcome) (n : Nat) (t0 : Option String)
    (h : ∀ r ∈ rs, isProcessedFinal r = false) :
    postsOf (loopGo rs oracle n t0).1 = [] := by
  obtain ⟨outs, n2, t2, heq, hp⟩ := loopGo_skip_prefix rs [] oracle n t0 h
  rw [List.append_nil] at heq
  rw [heq]
  simp [postsOf_append, hp, loopGo]

/-! ### Claims C6, C7 (above), C8 and C9 -/

/-- C6: for a response sequence whose processed results contain exactly one
final result, with non-empty transcript `t`, the dispatcher invokes the relay
exactly once and that invocation issues exactly one HTTP POST, to the fixed
endpoint, with JSON body `Question = t`.  (A final `SpeechResult` beyond the
first of a response is never examined by the code — client.py line 114 reads
`results[0]` — so "final result" is read as "response processed as final".) -/
theorem relay_exactly_once (pre post2 : List RecognitionResponse) (t : String)
    (as : List Alternative) (more : List SpeechResult) (oracle : List RelayOutcome)
    (h1 : ∀ r ∈ pre, isProcessedFinal r = false)
    (h2 : ∀ r ∈ post2, isProcessedFinal r = false)
    (ht : ¬ t = "") :
    postsOf (listen_print_loop (pre ++ ⟨⟨⟨t⟩ :: as, true⟩ :: more⟩ :: post2) oracle).1
      = [(api_url, [("Question", t)])] := by
  obtain ⟨outs, n2, t2, heq, hp⟩ :=
    loopGo_skip_prefix pre (⟨⟨⟨t⟩ :: as, true⟩ :: more⟩ :: post2) oracle 0 none h1
  show postsOf (loopGo (pre ++ ⟨⟨⟨t⟩ :: as, true⟩ :: more⟩ :: post2) oracle 0 none).1
      = [(api_url, [("Question", t)])]
  rw [heq]
  show postsOf (outs ++ (loopGo (⟨⟨⟨t⟩ :: as, true⟩ :: more⟩ :: post2) oracle n2 t2).1)
      = [(api_url, [("Question", t)])]
  rw [postsOf_append, hp, loopGo_final]
  by_cases hx : reSearchExitQuit t
  · simp [hx, postsOf_write, postsOf_append, postsOf_send, ht, postsOf_printed, postsOf_nil]
  · simp [hx, postsOf_write, postsOf_append, postsOf_send, ht,
      loopGo_no_final_posts post2 oracle.tail 0 (some t) h2]

/-- Witness for C6: a single final response with transcript "hello world". -/
theorem relay_exactly_once_witness :
    postsOf (listen_print_loop [⟨[⟨[⟨"hello world"⟩], true⟩]⟩] []).1
      = [(api_url, [("Question", "hello world")])] :=
  relay_exactly_once [] [] "hello world" [] [] [] (by simp) (by simp) (by decide)

/-- C8: a transport or HTTP-status error in the relay call is caught and
logged inside `send_text_to_backend` and does not propagate: for a final
result with non-empty transcript `t`, the dispatcher's trace decomposes the
same way for every relay outcome — the exit-phrase check is still evaluated,
and the continuation and returned transcript do not depend on the outcome.
In the error case the relay call merely ends with the logged error line. -/
theorem relay_failure_isolation (t : String) (as : List Alternative)
    (more : List SpeechResult) (rest : List RecognitionResponse)
    (oracle : List RelayOutcome) (n : Nat) (t0 : Option String)
    (ht : ¬ t = "") :
    (∀ o : RelayOutcome,
      loopGo (⟨⟨⟨t⟩ :: as, true⟩ :: more⟩ :: rest) (o :: oracle) n t0
        = (Out.write (t ++ pyStrRepeat " " ((n : Int) - (t.length : Int)) ++ "\n")
              :: send_text_to_backend t o
              ++ (if reSearchExitQuit t then [Out.printed "Exiting.."]
                  else (loopGo rest oracle 0 (some t)).1),
            if reSearchExitQuit t then some t
            else (loopGo rest oracle 0 (some t)).2))
    ∧ (∀ prior : List String, ∀ msg : String,
        ∃ outs, send_text_to_backend t (RelayOutcome.err prior msg)
          = outs ++ [Out.printed ("Error sending request to backend: " ++ msg)]) := by
  constructor
  · intro o
    rw [loopGo_final]
    by_cases hx : reSearchExitQuit t <;> simp [hx]
  · intro prior msg
    refine ⟨Out.printed ("Sending text to backend:  " ++ t)
        :: Out.post api_url [("Question", t)] :: relayWrites prior "", ?_⟩
    simp [send_text_to_backend, try_body, if_neg ht]

/-- Witness for C8 at transcript "hello". -/
theorem relay_failure_isolation_witness :
    (∀ o : RelayOutcome,
      loopGo [⟨[⟨[⟨"hello"⟩], true⟩]⟩] (o :: []) 0 none
        = (Out.write ("hello" ++ pyStrRepeat " " ((0 : Int) - (("hello" : String).length : Int)) ++ "\n")
              :: send_text_to_backend "hello" o
              ++ (if reSearchExitQuit "hello" then [Out.printed "Exiting.."]
                  else (loopGo [] [] 0 (some "hello")).1),
            if reSearchExitQuit "hello" then some "hello"
            else (loopGo [] [] 0 (some "hello")).2))
    ∧ (∀ prior : List String, ∀ msg : String,
        ∃ outs, send_text_to_backend "hello" (RelayOutcome.err prior msg)
          = outs ++ [Out.printed ("Error sending request to backend: " ++ msg)]) :=
  relay_failure_isolation "hello" [] [] [] [] 0 none (by decide)

theorem mainDriver_length (k : Nat) : ∀ inp : Nat → SessionInput,
    (mainDriver k inp).length = k := by
  induction k with
  | zero => intro inp; rfl
  | succ k ih => intro inp; simp [mainDriver, ih]

/-- C9: a final transcript matching the exit phrase only breaks the inner
response-processing loop: the loop's behaviour ignores the remaining
responses, its trace ends with the exit notice, and it hands back that
transcript; the outer `while True:` driver then unconditionally re-enters its
body, so any observation window of `k` iterations contains exactly `k`
sessions — the exit phrase never terminates the process. -/
theorem exit_breaks_inner_loop_only (t : String) (as : List Alternative)
    (more : List SpeechResult) (rest : List RecognitionResponse)
    (oracle : List RelayOutcome) (n : Nat) (t0 : Option String) (k : Nat)
    (inp : Nat → SessionInput) (hx : reSearchExitQuit t = true) :
    loopGo (⟨⟨⟨t⟩ :: as, true⟩ :: more⟩ :: rest) oracle n t0
        = loopGo [⟨⟨⟨t⟩ :: as, true⟩ :: more⟩] oracle n t0
    ∧ (loopGo (⟨⟨⟨t⟩ :: as, true⟩ :: more⟩ :: rest) oracle n t0).2 = some t
    ∧ (∃ outs, (loopGo (⟨⟨⟨t⟩ :: as, true⟩ :: more⟩ :: rest) oracle n t0).1
          = outs ++ [Out.printed "Exiting.."])
    ∧ (mainDriver k inp).length = k := by
  have e1 := loopGo_final t as more rest oracle n t0
  have e2 := loopGo_final t as more [] oracle n t0
  rw [if_pos hx] at e1 e2
  refine ⟨e1.trans e2.symm, by rw [e1], ?_, mainDriver_length k inp⟩
  refine ⟨Out.write (t ++ pyStrRepeat " " ((n : Int) - (t.length : Int)) ++ "\n")
      :: send_text_to_backend t (oracle.headD (RelayOutcome.ok [])), ?_⟩
  rw [e1]

/-- Witness for C9 at transcript "exit", with a further queued response and a
two-iteration driver window. -/
theorem exit_breaks_inner_loop_only_witness :
    loopGo [⟨[⟨[⟨"exit"⟩], true⟩]⟩, ⟨[]⟩] [] 0 none
        = loopGo [⟨[⟨[⟨"exit"⟩], true⟩]⟩] [] 0 none
    ∧ (loopGo [⟨[⟨[⟨"exit"⟩], true⟩]⟩, ⟨[]⟩] [] 0 none).2 = some "exit"
    ∧ (∃ outs, (loopGo [⟨[⟨[⟨"exit"⟩], true⟩]⟩, ⟨[]⟩] [] 0 none).1
          = outs ++ [Out.printed "Exiting.."])
    ∧ (mainDriver 2 (fun _ => ⟨[], []⟩)).length = 2 :=
  exit_breaks_inner_loop_only "exit" [] [] [⟨[]⟩] [] 0 none 2 (fun _ => ⟨[], []⟩)
    (by decide)

/-! ### Claim C5: the stop-phrase regular expression -/

theorem getLast?_or_shift (c : Char) (pre : List Char) (prev : Option Char) :
    ((c :: pre).getLast?).or prev = (pre.getLast?).or (some c) := by
  cases pre with
  | nil => rfl
  | cons d pre =>
    rw [List.getLast?_cons_cons]
    obtain ⟨x, hx⟩ : ∃ x, (d :: pre).getLast? = some x := by
      cases h : (d :: pre).getLast? with
      | none => exact absurd (List.getLast?_eq_none_iff.mp h) (by simp)
      | some x => exact ⟨x, rfl⟩
    rw [hx]
    rfl

theorem ciPrefixBoundary_iff (w : List Char) : ∀ s : List Char,
    ciPrefixBoundary w s = true ↔
    ∃ mid post, s = mid ++ post ∧ mid.map Char.toLower = w
      ∧ (∀ c, post.head? = some c → isWordChar c = false) := by
  induction w with
  | nil =>
    intro s
    cases s with
    | nil =>
      constructor
      · intro _
        exact ⟨[], [], rfl, rfl, by intro c h; simp at h⟩
      · intro _; rfl
    | cons c s =>
      constructor
      · intro h
        refine ⟨[], c :: s, rfl, rfl, ?_⟩
        intro d hd
        simp only [List.head?_cons, Option.some.injEq] at hd
        subst hd
        simpa [ciPrefixBoundary] using h
      · rintro ⟨mid, post, hs, hm, hp⟩
        have hmid : mid = [] := List.map_eq_nil_iff.mp hm
        subst hmid
        simp only [List.nil_append] at hs
        subst hs
        show (!isWordChar c) = true
        simp [hp c rfl]
  | cons a w ih =>
    intro s
    cases s with
    | nil =>
      constructor
      · intro h; simp [ciPrefixBoundary] at h
      · rintro ⟨mid, post, hs, hm, hp⟩
        cases mid with
        | nil => simp at hm
        | cons x xs => simp at hs
    | cons c s =>
      constructor
      · intro h
        simp only [ciPrefixBoundary, Bool.and_eq_true, beq_iff_eq] at h
        obtain ⟨hc, hrest⟩ := h
        obtain ⟨mid, post, hs, hm, hp⟩ := (ih s).mp hrest
        exact ⟨c :: mid, post, by simp [hs], by simp [hm, hc], hp⟩
      · rintro ⟨mid, post, hs, hm, hp⟩
        cases mid with
        | nil => simp at hm
        | cons x xs =>
          simp only [List.cons_append, List.cons.injEq] at hs
          obtain ⟨hx, hs2⟩ := hs
          subst hx
          simp only [List.map_cons, List.cons.injEq] at hm
          obtain ⟨hc, hm2⟩ := hm
          simp only [ciPrefixBoundary, Bool.and_eq_true, beq_iff_eq]
          exact ⟨hc, (ih s).mpr ⟨xs, post, hs2, hm2, hp⟩⟩

theorem searchFrom_iff (w : List Char) : ∀ (s : List Char) (prev : Option Char),
    searchFrom w prev s = true ↔
    ∃ pre mid post, s = pre ++ mid ++ post ∧ mid.map Char.toLower = w
      ∧ boundaryOK ((pre.getLast?).or prev) = true
      ∧ (∀ c, post.head? = some c → isWordChar c = false) := by
  intro s
  induction s with
  | nil =>
    intro prev
    constructor
    · intro h
      simp only [searchFrom, Bool.and_eq_true] at h
      obtain ⟨hb, hc⟩ := h
      cases w with
      | nil =>
        exact ⟨[], [], [], rfl, rfl, by simpa using hb, by intro c hc2; simp at hc2⟩
      | cons a w => simp [ciPrefixBoundary] at hc
    · rintro ⟨pre, mid, post, hs, hm, hb, hp⟩
      obtain ⟨hpremid, hpost⟩ := List.append_eq_nil.mp hs.symm
      obtain ⟨hpre, hmid⟩ := List.append_eq_nil.mp hpremid
      subst hpre
      subst hmid
      have hw : w = [] := by simpa using hm.symm
      subst hw
      simp only [searchFrom, Bool.and_eq_true]
      exact ⟨by simpa using hb, rfl⟩
  | cons c s ih =>
    intro prev
    simp only [searchFrom, Bool.or_eq_true, Bool.and_eq_true]
    constructor
    · rintro (⟨hb, hc⟩ | hrec)
      · obtain ⟨mid, post, hs, hm, hp⟩ := (ciPrefixBoundary_iff w (c :: s)).mp hc
        exact ⟨[], mid, post, by simpa using hs, hm, by simpa using hb, hp⟩
      · obtain ⟨pre, mid, post, hs, hm, hb, hp⟩ := (ih (some c)).mp hrec
        refine ⟨c :: pre, mid, post, by simp [hs], hm, ?_, hp⟩
        rw [getLast?_or_shift]
        exact hb
    · rintro ⟨pre, mid, post, hs, hm, hb, hp⟩
      cases pre with
      | nil =>
        left
        simp only [List.nil_append] at hs
        exact ⟨by simpa using hb,
          (ciPrefixBoundary_iff w (c :: s)).mpr ⟨mid, post, hs, hm, hp⟩⟩
      | cons x pre =>
        right
        simp only [List.cons_append, List.cons.injEq] at hs
        obtain ⟨hx, hs2⟩ := hs
        subst hx
        refine (ih (some c)).mpr ⟨pre, mid, post, hs2, hm, ?_, hp⟩
        rw [← getLast?_or_shift]
        exact hb

theorem boundaryOK_or_none (pre : List Char) :
    boundaryOK ((pre.getLast?).or none) = true ↔
      (∀ c, pre.getLast? = some c → isWordChar c = false) := by
  cases h : pre.getLast? with
  | none => simp [boundaryOK]
  | some c => simp [boundaryOK, h]

/-- C5: the dispatcher's stop-phrase check (client.py line 133) holds exactly
when the transcript contains "exit" or "quit" as a whole word — delimited by
word boundaries, compared case-insensitively; in particular "please exit now"
and "QUIT" match while "exiting" does not. -/
theorem exit_phrase_detection (s : String) :
    (reSearchExitQuit s = true
      ↔ (IsWordOccurrence exit_chars s ∨ IsWordOccurrence quit_chars s))
    ∧ reSearchExitQuit "please exit now" = true
    ∧ reSearchExitQuit "QUIT" = true
    ∧ reSearchExitQuit "exiting" = false := by
  refine ⟨?_, by decide, by decide, by decide⟩
  have key : ∀ w : List Char, searchFrom w none s.data = true ↔ IsWordOccurrence w s := by
    intro w
    rw [searchFrom_iff]
    constructor
    · rintro ⟨pre, mid, post, hs, hm, hb, hp⟩
      exact ⟨pre, mid, post, hs, hm, (boundaryOK_or_none pre).mp hb, hp⟩
    · rintro ⟨pre, mid, post, hs, hm, hb, hp⟩
      exact ⟨pre, mid, post, hs, hm, (boundaryOK_or_none pre).mpr hb, hp⟩
  show (searchFrom exit_chars none s.data || searchFrom quit_chars none s.data) = true ↔ _
  simp only [Bool.or_eq_true, key]

end Client
